import Mathlib

/-!
# Verification of `egzreader` (src/lib.rs)

`EgzReader` is a polymorphic reader: on the first `read` it sniffs up to 11
bytes from the underlying source, classifies the stream as empty / gzip / raw,
and thereafter forwards every read to the selected concrete reader.

We embed the Rust code shallowly.  A byte is a `Nat`; an underlying source is
a state `σ` together with a read function
`readFn : σ → Nat → Except ε (List Nat) × σ` mapping a state and a requested
byte count to a result (the bytes produced, at most the requested count for a
well-formed source) and a successor state.  Fallible operations return
`Except ε`; the reader types mirror the Rust structs field for field.
-/

/-- Bytes are modelled as natural numbers. -/
abbrev Byte := Nat

/-- A source read function: from state `s`, read at most `k` bytes, returning
the bytes (or an error) and the successor state.  This models Rust's
`Read::read(&mut self, buf: &mut [u8]) -> io::Result<usize>`, where the
returned list stands for the prefix of `buf` that was filled. -/
abbrev ReadFn (σ ε : Type) := σ → Nat → Except ε (List Byte) × σ

/-- A well-formed source never claims to have produced more bytes than the
caller's buffer could hold (the `Read` contract). -/
def ReadFnWF {σ ε : Type} (readFn : ReadFn σ ε) : Prop :=
  ∀ s k out s', readFn s k = (.ok out, s') → out.length ≤ k

/-- `impl Read for &[u8]`: serves `min k length` bytes from the front,
never fails.  This is the in-memory source used to run the reader on a
concrete input byte sequence. -/
def listRead {ε : Type} : ReadFn (List Byte) ε :=
  fun s k => (.ok (s.take k), s.drop k)

/-- A source that yields at most one byte per call (a maximally short-reading
source), used for the short-read robustness property. -/
def oneRead {ε : Type} : ReadFn (List Byte) ε :=
  fun s k => if k = 0 then (.ok [], s) else (.ok (s.take 1), s.drop 1)

/-- A source whose every read fails. -/
def errRead : ReadFn Unit Unit :=
  fun s _ => (.error (), s)

/-- The Rust sniff buffer is `let mut buf = [0; 11]`: an 11-byte array
initialised to zero, of which the loop fills a prefix `acc`.  Its full
content is that prefix followed by the untouched zero tail. -/
def fillBuf (acc : List Byte) : List Byte :=
  acc ++ List.replicate (11 - acc.length) 0

/--
```rust
struct RawReader<R> { preread: [u8; 11], pos: usize, size: usize, reader: R }
```
-/
structure RawReader (σ : Type) where
  preread : List Byte
  pos : Nat
  size : Nat
  reader : σ
deriving Repr

/-- `RawReader::new(preread, size, r)` (pos starts at 0). -/
def RawReader.new {σ : Type} (preread : List Byte) (size : Nat) (r : σ) :
    RawReader σ :=
  ⟨preread, 0, size, r⟩

/--
```rust
fn read(&mut self, buf) -> Result<usize> {
    if self.size <= self.pos { self.reader.read(buf) }
    else {
        let n = (&self.preread[self.pos..self.size]).read(buf)?;
        self.pos += n; Ok(n)
    }
}
```
The slice read copies `min (size - pos) k` bytes starting at `pos` and cannot
fail, so the `?` never fires in the snapshot branch. -/
def RawReader.read {σ ε : Type} (readFn : ReadFn σ ε) (raw : RawReader σ)
    (k : Nat) : Except ε (List Byte) × RawReader σ :=
  if raw.size ≤ raw.pos then
    let r := readFn raw.reader k
    (r.1, ⟨raw.preread, raw.pos, raw.size, r.2⟩)
  else
    let m := min (raw.size - raw.pos) k
    (.ok ((raw.preread.drop raw.pos).take m),
      ⟨raw.preread, raw.pos + m, raw.size, raw.reader⟩)

/-- The byte stream still observable through a `RawReader` over an in-memory
source: the unread part of the snapshot (`preread[pos..size]`) followed by
whatever remains in the underlying source. -/
def rawStream (raw : RawReader (List Byte)) : List Byte :=
  (raw.preread.drop raw.pos).take (raw.size - raw.pos) ++ raw.reader

/-- Structural well-formedness of a `RawReader` state (the `debug_assert!`s
of the Rust code): the cursor is within the filled part and the filled part
within the snapshot. -/
def RawReader.WF {σ : Type} (raw : RawReader σ) : Prop :=
  raw.pos ≤ raw.size ∧ raw.size ≤ raw.preread.length

/-- Modelled from the spec: `GzReader` wraps `flate2::read::GzDecoder`, the
external decompression collaborator, which is not part of this repository.
We model only its end-to-end behaviour: the state is the decoder's remaining
decoded output (or its pending error), produced once and for all by an
abstract collaborator function from the snapshot and source handed to
`GzDecoder::new(RawReader::new(preread, 11, r))`; reads serve that output
incrementally. -/
structure GzReader (ε : Type) where
  out : Except ε (List Byte)

/-- The abstract decompression collaborator: from the 11-byte snapshot and
the source state it is constructed over, the complete decoded output (or an
error for malformed data). -/
abbrev GzModel (σ ε : Type) := List Byte → σ → Except ε (List Byte)

/-- `GzReader::new(preread, r)` builds the decoder over
`RawReader::new(preread, 11, r)`; in the model the collaborator function is
handed exactly those two arguments. -/
def GzReader.new {σ ε : Type} (gzNew : GzModel σ ε) (preread : List Byte)
    (r : σ) : GzReader ε :=
  ⟨gzNew preread r⟩

/-- A read from the modelled decoder: a pending error is surfaced; otherwise
at most `k` of the remaining decoded bytes are served. -/
def GzReader.read {ε : Type} (gz : GzReader ε) (k : Nat) :
    Except ε (List Byte) × GzReader ε :=
  match gz.out with
  | .error e => (.error e, ⟨.error e⟩)
  | .ok l => (.ok (l.take k), ⟨.ok (l.drop k)⟩)

/-- Modelled from the spec, for runs over in-memory sources: a correct
decompression collaborator applies a pure decode function to the complete
byte stream observable through the inner `RawReader` it was constructed
over. -/
def gzOfDecode {ε : Type} (decode : List Byte → Except ε (List Byte)) :
    GzModel (List Byte) ε :=
  fun preread r => decode (rawStream (RawReader.new preread 11 r))

/-- A trivial decompression collaborator model (used to instantiate theorems
whose conclusion does not depend on the gzip path). -/
def gzNone {σ ε : Type} : GzModel σ ε := fun _ _ => .ok []

/--
```rust
enum ReaderType<R> { Init(R), Zero, Raw(RawReader<R>), Gz(GzReader<R>) }
```
-/
inductive ReaderType (σ ε : Type) where
  | Init : σ → ReaderType σ ε
  | Zero : ReaderType σ ε
  | Raw : RawReader σ → ReaderType σ ε
  | Gz : GzReader ε → ReaderType σ ε

/-- `ReaderType::is_init`. -/
def ReaderType.is_init {σ ε : Type} : ReaderType σ ε → Bool
  | .Init _ => true
  | _ => false

/-- The variant tag of a `ReaderType` (0 = Init, 1 = Zero, 2 = Raw, 3 = Gz),
used to state that reads never change the selected variant. -/
def ReaderType.tag {σ ε : Type} : ReaderType σ ε → Nat
  | .Init _ => 0
  | .Zero => 1
  | .Raw _ => 2
  | .Gz _ => 3

/-- The look-ahead loop of `ReaderType::make_reader`:
```rust
let mut nread = 0;
loop {
    let bytes = reader.read(&mut buf[nread..])?;
    if bytes == 0 { break; }
    nread += bytes;
    if buf.len() <= nread { break; }
}
```
`acc` is the filled prefix of `buf` (`nread = acc.length`); the request size
`11 - acc.length` is the length of the slice `buf[nread..]`. -/
def sniffLoop {σ ε : Type} (readFn : ReadFn σ ε) (s : σ) (acc : List Byte) :
    Except ε (List Byte × σ) :=
  match readFn s (11 - acc.length) with
  | (.error e, _) => .error e
  | (.ok out, s') =>
    if hout : out = [] then .ok (acc, s')
    else
      if 11 ≤ (acc ++ out).length then .ok (acc ++ out, s')
      else sniffLoop readFn s' (acc ++ out)
termination_by 11 - acc.length
decreasing_by
  simp only [List.length_append] at *
  have : 0 < out.length := List.length_pos.mpr hout
  omega

/--
```rust
fn make_reader(mut reader: R) -> Result<ReaderType<R>> {
    let mut buf = [0; 11];
    let n = { ... loop above ... };
    if n == 0 { Ok(ReaderType::Zero) }
    else if n == 11 && buf[..2] == [0x1f, 0x8b] && buf[2] <= 0x08 {
        Ok(ReaderType::Gz(GzReader::new(buf, reader)))
    } else {
        Ok(ReaderType::Raw(RawReader::new(buf, n, reader)))
    }
}
```
-/
def make_reader {σ ε : Type} (readFn : ReadFn σ ε) (gzNew : GzModel σ ε)
    (r : σ) : Except ε (ReaderType σ ε) :=
  match sniffLoop readFn r [] with
  | .error e => .error e
  | .ok (acc, s') =>
    let buf := fillBuf acc
    let n := acc.length
    if n = 0 then .ok .Zero
    else if n = 11 ∧ buf.take 2 = [0x1f, 0x8b] ∧ buf.getD 2 0 ≤ 0x08 then
      .ok (.Gz (GzReader.new gzNew buf s'))
    else
      .ok (.Raw (RawReader.new buf n s'))

/-- Dispatch of `ReaderType::read` once the state is no longer `Init`
(the recursive `self.read(buf)` call in the Rust code runs with
`debug_assert!(!self.is_init())`; `make_reader` never returns `Init`, see
`make_reader_not_init`).  The `Init` case below is dead code kept only to
make the function total. -/
def ReaderType.readTerminal {σ ε : Type} (readFn : ReadFn σ ε) :
    ReaderType σ ε → Nat → Except ε (List Byte) × ReaderType σ ε
  | .Init r, _ => (.ok [], .Init r)
  | .Zero, _ => (.ok [], .Zero)
  | .Raw raw, k =>
    let r := RawReader.read readFn raw k
    (r.1, .Raw r.2)
  | .Gz gz, k =>
    let r := gz.read k
    (r.1, .Gz r.2)

/--
```rust
fn read(&mut self, buf) -> Result<usize> {
    match self {
        ReaderType::Init(_) => {
            let init = mem::replace(self, ReaderType::Zero);
            *self = init.into_actual_reader()?;
            self.read(buf)
        }
        ReaderType::Zero => Ok(0),
        ReaderType::Raw(raw) => raw.read(buf),
        ReaderType::Gz(gz) => gz.read(buf),
    }
}
```
Note the `mem::replace`: when `into_actual_reader` (= `make_reader`) fails,
`self` has already been replaced by `Zero`, so the error is returned with the
state left at `Zero`.  On success the recursive `self.read(buf)` call starts
from a non-`Init` state, hence equals `readTerminal`. -/
def ReaderType.read {σ ε : Type} (readFn : ReadFn σ ε) (gzNew : GzModel σ ε) :
    ReaderType σ ε → Nat → Except ε (List Byte) × ReaderType σ ε
  | .Init r, k =>
    match make_reader readFn gzNew r with
    | .error e => (.error e, .Zero)
    | .ok rt => rt.readTerminal readFn k
  | .Zero, _ => (.ok [], .Zero)
  | .Raw raw, k =>
    let r := RawReader.read readFn raw k
    (r.1, .Raw r.2)
  | .Gz gz, k =>
    let r := gz.read k
    (r.1, .Gz r.2)

/-- `pub struct EgzReader<R>(ReaderType<R>)`. -/
structure EgzReader (σ ε : Type) where
  rt : ReaderType σ ε

/-- `EgzReader::new(r) = EgzReader(ReaderType::Init(r))`. -/
def EgzReader.new {σ ε : Type} (r : σ) : EgzReader σ ε :=
  ⟨.Init r⟩

/-- `impl Read for EgzReader`: forwards to the inner `ReaderType`. -/
def EgzReader.read {σ ε : Type} (readFn : ReadFn σ ε) (gzNew : GzModel σ ε)
    (e : EgzReader σ ε) (k : Nat) : Except ε (List Byte) × EgzReader σ ε :=
  let r := e.rt.read readFn gzNew k
  (r.1, ⟨r.2⟩)

/-- Issue one read per element of the schedule `ss` (each element a requested
byte count), concatenating the bytes of successful reads; an error stops the
run.  This models an arbitrary caller draining the reader. -/
def runReads {σ ε : Type} (readFn : ReadFn σ ε) (gzNew : GzModel σ ε) :
    ReaderType σ ε → List Nat → List Byte × ReaderType σ ε
  | rt, [] => ([], rt)
  | rt, k :: ks =>
    match rt.read readFn gzNew k with
    | (.error _, rt') => ([], rt')
    | (.ok out, rt') =>
      let r := runReads readFn gzNew rt' ks
      (out ++ r.1, r.2)

/-- Drain an `EgzReader` with the read-size schedule `ss`. -/
def drainEgz {σ ε : Type} (readFn : ReadFn σ ε) (gzNew : GzModel σ ε)
    (e : EgzReader σ ε) (ss : List Nat) : List Byte × ReaderType σ ε :=
  runReads readFn gzNew e.rt ss

/-- The gzip signature test on an input byte sequence, as `make_reader`
performs it on its sniff buffer: at least 11 bytes are available, the first
two are the gzip magic `0x1f 0x8b`, and the third (compression method) is at
most `0x08`. -/
def isGzSig (l : List Byte) : Prop :=
  11 ≤ l.length ∧ l.take 2 = [0x1f, 0x8b] ∧ l.getD 2 0 ≤ 0x08

instance (l : List Byte) : Decidable (isGzSig l) := by
  unfold isGzSig; infer_instance

/-! ## Basic lemmas about sources and the sniff buffer -/

theorem listRead_wf {ε : Type} : ReadFnWF (listRead (ε := ε)) := by
  intro s k out s' h
  simp only [listRead, Prod.mk.injEq, Except.ok.injEq] at h
  rw [← h.1]
  simp [List.length_take]

theorem oneRead_wf {ε : Type} : ReadFnWF (oneRead (ε := ε)) := by
  intro s k out s' h
  simp only [oneRead] at h
  split at h
  · simp only [Prod.mk.injEq, Except.ok.injEq] at h
    rw [← h.1]; simp
  · next hk =>
    simp only [Prod.mk.injEq, Except.ok.injEq] at h
    rw [← h.1]
    have : (s.take 1).length ≤ 1 := by simp [List.length_take]
    omega

theorem fillBuf_length (acc : List Byte) (h : acc.length ≤ 11) :
    (fillBuf acc).length = 11 := by
  simp [fillBuf, List.length_append, List.length_replicate]
  omega

theorem fillBuf_eq_self (acc : List Byte) (h : 11 ≤ acc.length) :
    fillBuf acc = acc := by
  simp [fillBuf]
  omega

theorem fillBuf_take (acc : List Byte) :
    (fillBuf acc).take acc.length = acc := by
  simp [fillBuf, List.take_left]

/-! ## The sniff loop -/

theorem sniffLoop_listRead {ε : Type} (l : List Byte) :
    sniffLoop (listRead (ε := ε)) l [] = .ok (l.take 11, l.drop 11) := by
  rw [sniffLoop]
  simp only [listRead, List.length_nil, Nat.sub_zero, List.nil_append]
  split
  · next h =>
    rcases List.take_eq_nil_iff.mp h with h11 | hl
    · omega
    · subst hl; simp
  · next hne =>
    split
    · next hle => rfl
    · next hlt =>
      have hlen : l.length < 11 := by
        simp only [List.length_take] at hlt; omega
      have ht : l.take 11 = l := List.take_of_length_le (by omega)
      have hd : l.drop 11 = [] := List.drop_eq_nil_of_le (by omega)
      rw [ht, hd, sniffLoop]
      simp only [listRead, List.take_nil, List.drop_nil]
      simp [ht, hd]

theorem sniffLoop_length_le {σ ε : Type} (readFn : ReadFn σ ε)
    (hwf : ReadFnWF readFn) :
    ∀ (s : σ) (acc : List Byte), acc.length ≤ 11 →
      ∀ (res : List Byte) (s' : σ),
        sniffLoop readFn s acc = .ok (res, s') → res.length ≤ 11 := by
  intro s acc
  induction s, acc using sniffLoop.induct readFn with
  | case1 s acc e snd heq =>
    intro hacc res s' h
    rw [sniffLoop, heq] at h
    exact absurd h (by simp)
  | case2 s acc s2 heq =>
    intro hacc res s' h
    rw [sniffLoop, heq] at h
    simp at h
    rw [← h.1]
    exact hacc
  | case3 s acc out s2 heq hne hle =>
    intro hacc res s' h
    rw [sniffLoop, heq] at h
    have hle' : 11 ≤ acc.length + out.length := by simpa using hle
    simp [hne, hle'] at h
    have hout := hwf s _ out s2 heq
    rw [← h.1]
    simp only [List.length_append]
    omega
  | case4 s acc out s2 heq hne hlt ih =>
    intro hacc res s' h
    rw [sniffLoop, heq] at h
    have hlt' : ¬ 11 ≤ acc.length + out.length := by simpa using hlt
    simp [hne, hlt'] at h
    have hout := hwf s _ out s2 heq
    exact ih (by simp only [List.length_append]; omega) res s' h

theorem sniffLoop_oneRead_aux {ε : Type} :
    ∀ (n : Nat) (acc l : List Byte), acc.length + n = 11 → 0 < n →
      n ≤ l.length →
      sniffLoop (oneRead (ε := ε)) l acc = .ok (acc ++ l.take n, l.drop n) := by
  intro n
  induction n with
  | zero => intro acc l _ h0; omega
  | succ m ih =>
    intro acc l hlen h0 hl
    have hlne : l ≠ [] := by
      intro h; rw [h] at hl; simp at hl
    have hk : 11 - acc.length = m + 1 := by omega
    have hm1 : ¬ (m + 1 = 0) := by omega
    have htake1 : ¬ (l.take 1 = []) := by
      simp [List.take_eq_nil_iff, hlne]
    have hlen1 : (l.take 1).length = 1 := by
      simp only [List.length_take]
      omega
    rw [sniffLoop, hk]
    simp only [oneRead, hm1, if_false, htake1, dite_false]
    by_cases hm : m = 0
    · subst hm
      have h11 : 11 ≤ (acc ++ l.take 1).length := by
        simp only [List.length_append, hlen1]; omega
      simp only [h11, if_true]
    · have hlt : ¬ 11 ≤ (acc ++ l.take 1).length := by
        simp only [List.length_append, hlen1]; omega
      simp only [hlt, if_false]
      rw [ih (acc ++ l.take 1) (l.drop 1)
        (by simp only [List.length_append, hlen1]; omega)
        (by omega)
        (by simp only [List.length_drop]; omega)]
      have ht : l.take (m + 1) = l.take 1 ++ (l.drop 1).take m := by
        rw [Nat.add_comm]
        exact List.take_add l 1 m
      have hd : (l.drop 1).drop m = l.drop (m + 1) := by
        rw [Nat.add_comm]
        exact List.drop_drop ..
      rw [ht, hd, List.append_assoc]

/-! ## Classification -/

theorem make_reader_listRead_nil {ε : Type} (gzNew : GzModel (List Byte) ε) :
    make_reader (listRead (ε := ε)) gzNew [] = .ok .Zero := by
  rw [make_reader, sniffLoop_listRead]
  simp

theorem make_reader_listRead_gz {ε : Type} (gzNew : GzModel (List Byte) ε)
    (l : List Byte) (hsig : isGzSig l) :
    make_reader (listRead (ε := ε)) gzNew l =
      .ok (.Gz (GzReader.new gzNew (l.take 11) (l.drop 11))) := by
  obtain ⟨hlen, htake, hgetD⟩ := hsig
  have hn : (l.take 11).length = 11 := by
    simp only [List.length_take]; omega
  have hfill : fillBuf (l.take 11) = l.take 11 := fillBuf_eq_self _ (by omega)
  have htakeF : (fillBuf (l.take 11)).take 2 = [0x1f, 0x8b] := by
    rw [hfill, List.take_take]; simpa using htake
  have hgetDF : (fillBuf (l.take 11)).getD 2 0 ≤ 0x08 := by
    rw [hfill, List.getD_eq_getElem?_getD, List.getElem?_take]
    rw [List.getD_eq_getElem?_getD] at hgetD
    simpa using hgetD
  have hn0 : ¬ ((l.take 11).length = 0) := by omega
  rw [make_reader, sniffLoop_listRead]
  simp only []
  rw [if_neg hn0, if_pos ⟨hn, htakeF, hgetDF⟩, hfill]

theorem make_reader_listRead_raw {ε : Type} (gzNew : GzModel (List Byte) ε)
    (l : List Byte) (hne : l ≠ []) (hnsig : ¬ isGzSig l) :
    make_reader (listRead (ε := ε)) gzNew l =
      .ok (.Raw ⟨fillBuf (l.take 11), 0, (l.take 11).length, l.drop 11⟩) := by
  have hn0 : ¬ ((l.take 11).length = 0) := by
    simp only [List.length_take]
    have : 0 < l.length := List.length_pos.mpr hne
    omega
  have hcond : ¬ ((l.take 11).length = 11
      ∧ (fillBuf (l.take 11)).take 2 = [0x1f, 0x8b]
      ∧ (fillBuf (l.take 11)).getD 2 0 ≤ 0x08) := by
    intro ⟨h11, htake, hgetD⟩
    apply hnsig
    have hlen : 11 ≤ l.length := by
      simp only [List.length_take] at h11; omega
    have hfill : fillBuf (l.take 11) = l.take 11 :=
      fillBuf_eq_self _ (by simp only [List.length_take]; omega)
    rw [hfill] at htake hgetD
    refine ⟨hlen, ?_, ?_⟩
    · rw [List.take_take] at htake; simpa using htake
    · rw [List.getD_eq_getElem?_getD, List.getElem?_take] at hgetD
      rw [List.getD_eq_getElem?_getD]
      simpa using hgetD
  rw [make_reader, sniffLoop_listRead]
  simp only []
  rw [if_neg hn0, if_neg hcond]
  rfl

theorem make_reader_not_init {σ ε : Type} (readFn : ReadFn σ ε)
    (gzNew : GzModel σ ε) (r : σ) (rt : ReaderType σ ε)
    (h : make_reader readFn gzNew r = .ok rt) : rt.is_init = false := by
  rw [make_reader] at h
  cases hs : sniffLoop readFn r [] with
  | error e => rw [hs] at h; exact absurd h (by simp)
  | ok p =>
    obtain ⟨acc, s'⟩ := p
    rw [hs] at h
    simp only [] at h
    split at h
    · cases h; rfl
    · split at h
      · cases h; rfl
      · cases h; rfl

/-! ## Reading from terminal states -/

theorem read_eq_readTerminal {σ ε : Type} (readFn : ReadFn σ ε)
    (gzNew : GzModel σ ε) (rt : ReaderType σ ε) (k : Nat)
    (h : rt.is_init = false) :
    rt.read readFn gzNew k = rt.readTerminal readFn k := by
  cases rt with
  | Init r => simp [ReaderType.is_init] at h
  | Zero => rfl
  | Raw raw => rfl
  | Gz gz => rfl

theorem readTerminal_tag {σ ε : Type} (readFn : ReadFn σ ε)
    (rt : ReaderType σ ε) (k : Nat) (h : rt.is_init = false) :
    ((rt.readTerminal readFn k).2).tag = rt.tag := by
  cases rt with
  | Init r => simp [ReaderType.is_init] at h
  | Zero => rfl
  | Raw raw => rfl
  | Gz gz => rfl

theorem runReads_Zero {σ ε : Type} (readFn : ReadFn σ ε)
    (gzNew : GzModel σ ε) (ss : List Nat) :
    runReads readFn gzNew (.Zero : ReaderType σ ε) ss = ([], .Zero) := by
  induction ss with
  | nil => rfl
  | cons k ks ih =>
    rw [runReads]
    simp [ReaderType.read, ih]

theorem runReads_Init_fst {σ ε : Type} (readFn : ReadFn σ ε)
    (gzNew : GzModel σ ε) (r : σ) (rt : ReaderType σ ε)
    (h : make_reader readFn gzNew r = .ok rt) (ss : List Nat) :
    (runReads readFn gzNew (.Init r) ss).1 = (runReads readFn gzNew rt ss).1 := by
  cases ss with
  | nil => rfl
  | cons k ks =>
    have hni := make_reader_not_init readFn gzNew r rt h
    rw [runReads, runReads, read_eq_readTerminal readFn gzNew rt k hni]
    simp only [ReaderType.read, h]

/-! ## Replay reader: single steps and drains over in-memory sources -/

theorem raw_read_forward {σ ε : Type} (readFn : ReadFn σ ε)
    (raw : RawReader σ) (k : Nat) (h : raw.size ≤ raw.pos) :
    RawReader.read readFn raw k =
      ((readFn raw.reader k).1,
        ⟨raw.preread, raw.pos, raw.size, (readFn raw.reader k).2⟩) := by
  rw [RawReader.read, if_pos h]

theorem raw_read_snapshot {σ ε : Type} (readFn : ReadFn σ ε)
    (raw : RawReader σ) (k : Nat) (h : raw.pos < raw.size) :
    RawReader.read readFn raw k =
      (.ok ((raw.preread.drop raw.pos).take (min (raw.size - raw.pos) k)),
        ⟨raw.preread, raw.pos + min (raw.size - raw.pos) k, raw.size,
          raw.reader⟩) := by
  rw [RawReader.read, if_neg (by omega)]

theorem raw_step {ε : Type} (raw : RawReader (List Byte)) (k : Nat)
    (hwf : raw.WF) :
    ∃ out raw', RawReader.read (listRead (ε := ε)) raw k = (.ok out, raw')
      ∧ raw'.WF
      ∧ out ++ rawStream raw' = rawStream raw
      ∧ (1 ≤ k → rawStream raw ≠ [] → out ≠ []) := by
  obtain ⟨hps, hsp⟩ := hwf
  by_cases h : raw.size ≤ raw.pos
  · refine ⟨(raw.reader).take k, ⟨raw.preread, raw.pos, raw.size, raw.reader.drop k⟩,
      ?_, ⟨hps, hsp⟩, ?_, ?_⟩
    · rw [raw_read_forward _ _ _ h]; rfl
    · have hsz : raw.size - raw.pos = 0 := by omega
      simp [rawStream, hsz]
    · intro hk hne
      have hsz : raw.size - raw.pos = 0 := by omega
      simp only [rawStream, hsz, List.take_zero, List.nil_append] at hne
      simp [List.take_eq_nil_iff, hne]
      omega
  · have hlt : raw.pos < raw.size := by omega
    set m := min (raw.size - raw.pos) k with hm
    refine ⟨(raw.preread.drop raw.pos).take m,
      ⟨raw.preread, raw.pos + m, raw.size, raw.reader⟩,
      raw_read_snapshot _ _ _ hlt,
      ⟨by show raw.pos + m ≤ raw.size; omega, hsp⟩, ?_, ?_⟩
    · simp only [rawStream]
      rw [← List.append_assoc]
      congr 1
      have hdd : raw.preread.drop (raw.pos + m) = (raw.preread.drop raw.pos).drop m := by
        rw [List.drop_drop]
      rw [hdd]
      have hsplit : raw.size - raw.pos = m + (raw.size - (raw.pos + m)) := by omega
      rw [hsplit, List.take_add]
    · intro hk hne
      have hm1 : 1 ≤ m := by omega
      have hlen : 1 ≤ (raw.preread.drop raw.pos).length := by
        simp only [List.length_drop]
        omega
      simp only [ne_eq, List.take_eq_nil_iff]
      push_neg
      constructor
      · omega
      · intro hnil
        rw [hnil] at hlen
        simp at hlen

theorem raw_drain {ε : Type} (gzNew : GzModel (List Byte) ε) :
    ∀ (ss : List Nat) (raw : RawReader (List Byte)), raw.WF →
      (∀ k ∈ ss, 1 ≤ k) → (rawStream raw).length ≤ ss.length →
      (runReads (listRead (ε := ε)) gzNew (.Raw raw) ss).1 = rawStream raw := by
  intro ss
  induction ss with
  | nil =>
    intro raw hwf hpos hlen
    simp only [List.length_nil, Nat.le_zero, List.length_eq_zero] at hlen
    rw [hlen]
    rfl
  | cons k ks ih =>
    intro raw hwf hpos hlen
    obtain ⟨out, raw', hread, hwf', hcat, hne⟩ :=
      raw_step (ε := ε) raw k hwf
    rw [runReads]
    simp only [ReaderType.read, hread]
    have hlen' : (rawStream raw').length ≤ ks.length := by
      have h1 := congrArg List.length hcat
      simp only [List.length_append] at h1
      by_cases hs : rawStream raw = []
      · have : (rawStream raw).length = 0 := by rw [hs]; rfl
        simp only [List.length_cons] at hlen
        omega
      · have hone : out ≠ [] := hne (hpos k (by simp)) hs
        have : 1 ≤ out.length := by
          have := List.length_pos.mpr hone; omega
        simp only [List.length_cons] at hlen
        omega
    rw [ih raw' hwf' (fun k hk => hpos k (by simp [hk])) hlen']
    exact hcat

theorem gz_drain {σ ε : Type} (readFn : ReadFn σ ε) (gzNew : GzModel σ ε) :
    ∀ (ss : List Nat) (p : List Byte), (∀ k ∈ ss, 1 ≤ k) →
      p.length ≤ ss.length →
      (runReads readFn gzNew (.Gz ⟨.ok p⟩) ss).1 = p := by
  intro ss
  induction ss with
  | nil =>
    intro p hpos hlen
    simp only [List.length_nil, Nat.le_zero, List.length_eq_zero] at hlen
    rw [hlen]
    rfl
  | cons k ks ih =>
    intro p hpos hlen
    rw [runReads]
    simp only [ReaderType.read, GzReader.read]
    have hk : 1 ≤ k := hpos k (by simp)
    have hlen' : (p.drop k).length ≤ ks.length := by
      simp only [List.length_drop]
      simp only [List.length_cons] at hlen
      omega
    rw [ih (p.drop k) (fun k hk => hpos k (by simp [hk])) hlen']
    exact List.take_append_drop k p

/-! ## Claim theorems -/

/-- C1: the one-time classification on first read decides exactly one of
three outcomes: 0 bytes accumulated gives `Zero` (Empty); exactly 11 bytes
whose first two are `0x1f 0x8b` and whose third is at most `0x08` gives `Gz`
carrying the full 11-byte buffer; every other case (1–10 bytes, or 11 bytes
failing the signature) gives `Raw` carrying the buffer and the count. -/
theorem make_reader_trichotomy {σ ε : Type} (readFn : ReadFn σ ε)
    (gzNew : GzModel σ ε) (hwf : ReadFnWF readFn) (r : σ)
    (acc : List Byte) (s' : σ)
    (hsniff : sniffLoop readFn r [] = .ok (acc, s')) :
    (acc.length = 0 ∧ make_reader readFn gzNew r = .ok .Zero)
    ∨ (acc.length = 11 ∧ isGzSig (fillBuf acc) ∧
        make_reader readFn gzNew r =
          .ok (.Gz (GzReader.new gzNew (fillBuf acc) s')))
    ∨ (((1 ≤ acc.length ∧ acc.length ≤ 10)
          ∨ (acc.length = 11 ∧ ¬ isGzSig (fillBuf acc)))
        ∧ make_reader readFn gzNew r =
          .ok (.Raw (RawReader.new (fillBuf acc) acc.length s'))) := by
  have hle : acc.length ≤ 11 :=
    sniffLoop_length_le readFn hwf r [] (by simp) acc s' hsniff
  have hfl : (fillBuf acc).length = 11 := fillBuf_length acc hle
  by_cases h0 : acc.length = 0
  · left
    refine ⟨h0, ?_⟩
    rw [make_reader, hsniff]
    simp only []
    rw [if_pos h0]
  · by_cases hgz : acc.length = 11 ∧ (fillBuf acc).take 2 = [0x1f, 0x8b]
        ∧ (fillBuf acc).getD 2 0 ≤ 0x08
    · right; left
      refine ⟨hgz.1, ⟨by omega, hgz.2.1, hgz.2.2⟩, ?_⟩
      rw [make_reader, hsniff]
      simp only []
      rw [if_neg h0, if_pos hgz]
    · right; right
      constructor
      · by_cases h11 : acc.length = 11
        · right
          exact ⟨h11, fun hs => hgz ⟨h11, hs.2.1, hs.2.2⟩⟩
        · left; omega
      · rw [make_reader, hsniff]
        simp only []
        rw [if_neg h0, if_neg hgz]

/-- Witness for C1 at the concrete 3-byte input `[1, 2, 3]`: the sniff
accumulates 3 bytes, so the Raw outcome holds. -/
theorem make_reader_trichotomy_inst :
    ((([1, 2, 3] : List Byte).length = 0 ∧
        make_reader (listRead (ε := Unit)) gzNone [1, 2, 3] = .ok .Zero)
    ∨ (([1, 2, 3] : List Byte).length = 11 ∧ isGzSig (fillBuf [1, 2, 3]) ∧
        make_reader (listRead (ε := Unit)) gzNone [1, 2, 3] =
          .ok (.Gz (GzReader.new (gzNone (σ := List Byte) (ε := Unit))
            (fillBuf [1, 2, 3]) ([] : List Byte))))
    ∨ (((1 ≤ ([1, 2, 3] : List Byte).length ∧ ([1, 2, 3] : List Byte).length ≤ 10)
          ∨ (([1, 2, 3] : List Byte).length = 11 ∧ ¬ isGzSig (fillBuf [1, 2, 3])))
        ∧ make_reader (listRead (ε := Unit)) gzNone [1, 2, 3] =
          .ok (.Raw (RawReader.new (fillBuf [1, 2, 3])
            ([1, 2, 3] : List Byte).length ([] : List Byte))))) :=
  make_reader_trichotomy (listRead (ε := Unit)) gzNone listRead_wf
    [1, 2, 3] [1, 2, 3] [] (sniffLoop_listRead [1, 2, 3])

/-- C2: an input that does not pass the gzip signature check (length 1–10,
or any length failing the magic/method test — including the empty input) is
replayed verbatim: draining the `EgzReader` with any schedule of positive
read sizes long enough to exhaust it returns exactly the original bytes. -/
theorem egz_raw_replay {ε : Type} (gzNew : GzModel (List Byte) ε)
    (l : List Byte) (ss : List Nat)
    (hclass : ¬ isGzSig l)
    (hpos : ∀ k ∈ ss, 1 ≤ k)
    (hlen : l.length ≤ ss.length) :
    (drainEgz (listRead (ε := ε)) gzNew (EgzReader.new l) ss).1 = l := by
  show (runReads (listRead (ε := ε)) gzNew (.Init l) ss).1 = l
  by_cases hnil : l = []
  · subst hnil
    rw [runReads_Init_fst _ _ _ _ (make_reader_listRead_nil gzNew) ss,
      runReads_Zero]
  · rw [runReads_Init_fst _ _ _ _
      (make_reader_listRead_raw gzNew l hnil hclass) ss]
    have hstream :
        rawStream ⟨fillBuf (l.take 11), 0, (l.take 11).length, l.drop 11⟩ = l := by
      simp only [rawStream, List.drop_zero, Nat.sub_zero]
      rw [fillBuf_take]
      exact List.take_append_drop 11 l
    have hwf0 :
        RawReader.WF ⟨fillBuf (l.take 11), 0, (l.take 11).length, l.drop 11⟩ := by
      constructor
      · exact Nat.zero_le _
      · rw [fillBuf_length _ (by simp only [List.length_take]; omega)]
        simp only [List.length_take]
        omega
    rw [raw_drain gzNew ss _ hwf0 hpos (by rw [hstream]; exact hlen)]
    exact hstream

/-- Witness for C2 at the boundary input: exactly 10 bytes starting with the
gzip magic `0x1f 0x8b` are still classified Raw and replayed verbatim when
drained by ten 1-byte reads. -/
theorem egz_raw_replay_inst :
    (drainEgz (listRead (ε := Unit)) gzNone
      (EgzReader.new [0x1f, 0x8b, 0x08, 0, 0, 0, 0, 0, 0, 0])
      [1, 1, 1, 1, 1, 1, 1, 1, 1, 1]).1 =
      [0x1f, 0x8b, 0x08, 0, 0, 0, 0, 0, 0, 0] :=
  egz_raw_replay gzNone [0x1f, 0x8b, 0x08, 0, 0, 0, 0, 0, 0, 0]
    [1, 1, 1, 1, 1, 1, 1, 1, 1, 1] (by decide) (by decide) (by decide)

/-- C3: for an input produced by a gzip compressor (so that it carries the
gzip signature), draining the `EgzReader` returns exactly the decompressed
plaintext, assuming a correct decompression collaborator (`decode` inverts
`gzip` on the complete byte stream reconstituted by the replay reader). -/
theorem egz_gzip_roundtrip {ε : Type}
    (decode : List Byte → Except ε (List Byte)) (gzip : List Byte → List Byte)
    (p : List Byte) (ss : List Nat)
    (hcorrect : ∀ q, decode (gzip q) = .ok q)
    (hsig : isGzSig (gzip p))
    (hpos : ∀ k ∈ ss, 1 ≤ k)
    (hlen : p.length ≤ ss.length) :
    (drainEgz (listRead (ε := ε)) (gzOfDecode decode)
      (EgzReader.new (gzip p)) ss).1 = p := by
  show (runReads (listRead (ε := ε)) (gzOfDecode decode) (.Init (gzip p)) ss).1 = p
  rw [runReads_Init_fst _ _ _ _
    (make_reader_listRead_gz (gzOfDecode decode) (gzip p) hsig) ss]
  have hstate :
      GzReader.new (gzOfDecode decode) ((gzip p).take 11) ((gzip p).drop 11) =
        (⟨.ok p⟩ : GzReader ε) := by
    simp only [GzReader.new, gzOfDecode]
    have hs : rawStream (RawReader.new ((gzip p).take 11) 11 ((gzip p).drop 11))
        = gzip p := by
      simp only [rawStream, RawReader.new, List.drop_zero, Nat.sub_zero,
        List.take_take, Nat.min_self]
      exact List.take_append_drop 11 (gzip p)
    rw [hs, hcorrect p]
  rw [hstate]
  exact gz_drain _ _ ss p hpos hlen

/-- Witness for C3 with a toy compressor (11-byte gzip-signature header
followed by the plaintext) and its decoder: the plaintext `[5, 6]` survives
the round trip. -/
theorem egz_gzip_roundtrip_inst :
    (drainEgz (listRead (ε := Unit))
      (gzOfDecode fun l => .ok (l.drop 11))
      (EgzReader.new [0x1f, 0x8b, 0x08, 0, 0, 0, 0, 0, 0, 0, 0, 5, 6])
      [1, 1]).1 = [5, 6] :=
  egz_gzip_roundtrip (fun l => .ok (l.drop 11))
    (fun q => [0x1f, 0x8b, 0x08, 0, 0, 0, 0, 0, 0, 0, 0] ++ q)
    [5, 6] [1, 1] (by intro q; simp) (by decide) (by decide) (by decide)

/-- Counterexample for C4: over an always-failing source, the first read
propagates the error, but the reader does NOT remain in the `Init`
(Uninitialized) state: the `mem::replace(self, ReaderType::Zero)` leaves it
at `Zero`, and the subsequent read returns 0 bytes successfully instead of
re-attempting classification (which would fail again). -/
theorem uninit_error_not_reattempted_cex :
    (ReaderType.read errRead gzNone (.Init ()) 1).1 = .error ()
    ∧ (ReaderType.read errRead gzNone (.Init ()) 1).2 = .Zero
    ∧ (ReaderType.read errRead gzNone (.Init ()) 1).2 ≠ .Init ()
    ∧ ReaderType.read errRead gzNone
        ((ReaderType.read errRead gzNone (.Init ()) 1).2) 1 = (.ok [], .Zero) := by
  have hmk : make_reader errRead gzNone () = .error () := by
    rw [make_reader, sniffLoop]
    simp [errRead]
  refine ⟨?_, ?_, ?_, ?_⟩ <;> simp [ReaderType.read, hmk]

/-- C4 (amended): if the underlying source errors during the look-ahead of
the first read, the error propagates to the caller, but the reader is left
in the terminal `Zero` state (not `Init`): a subsequent read does not
re-attempt classification and returns 0 bytes, for any source. -/
theorem classify_error_propagates {σ ε : Type} (readFn : ReadFn σ ε)
    (gzNew : GzModel σ ε) (r : σ) (e : ε) (k : Nat)
    (h : make_reader readFn gzNew r = .error e) :
    ReaderType.read readFn gzNew (.Init r) k = (.error e, .Zero)
    ∧ ∀ (readFn' : ReadFn σ ε) (k' : Nat),
        ReaderType.read readFn' gzNew
          ((ReaderType.read readFn gzNew (.Init r) k).2) k' = (.ok [], .Zero) := by
  have h1 : ReaderType.read readFn gzNew (.Init r) k = (.error e, .Zero) := by
    simp [ReaderType.read, h]
  refine ⟨h1, fun readFn' k' => ?_⟩
  rw [h1]
  simp [ReaderType.read]

/-- Witness for C4's amended statement over the always-failing source. -/
theorem classify_error_propagates_inst :
    ReaderType.read errRead gzNone (.Init ()) 2 = (.error (), .Zero)
    ∧ ∀ (readFn' : ReadFn Unit Unit) (k' : Nat),
        ReaderType.read readFn' gzNone
          ((ReaderType.read errRead gzNone (.Init ()) 2).2) k' = (.ok [], .Zero) :=
  classify_error_propagates errRead gzNone () () 2
    (by rw [make_reader, sniffLoop]; simp [errRead])

/-- C5: when classification fails on the first read, the instance is left in
the terminal `Zero` state: the error is surfaced once, and every later read
— under any source function and any collaborator, since `Zero` holds neither
— returns 0 bytes without error and without re-attempting classification. -/
theorem classify_error_terminal_Zero {σ ε : Type} (readFn : ReadFn σ ε)
    (gzNew : GzModel σ ε) (r : σ) (e : ε) (k : Nat)
    (h : make_reader readFn gzNew r = .error e) :
    (ReaderType.read readFn gzNew (.Init r) k).1 = .error e
    ∧ (ReaderType.read readFn gzNew (.Init r) k).2 = .Zero
    ∧ ∀ (readFn' : ReadFn σ ε) (gzNew' : GzModel σ ε) (k' : Nat),
        ReaderType.read readFn' gzNew' (.Zero : ReaderType σ ε) k' =
          (.ok [], .Zero) := by
  refine ⟨?_, ?_, ?_⟩
  · simp [ReaderType.read, h]
  · simp [ReaderType.read, h]
  · intro readFn' gzNew' k'
    simp [ReaderType.read]

/-- Witness for C5 over the always-failing source. -/
theorem classify_error_terminal_Zero_inst :
    (ReaderType.read errRead gzNone (.Init ()) 3).1 = .error ()
    ∧ (ReaderType.read errRead gzNone (.Init ()) 3).2 = .Zero
    ∧ ∀ (readFn' : ReadFn Unit Unit) (gzNew' : GzModel Unit Unit) (k' : Nat),
        ReaderType.read readFn' gzNew' (.Zero : ReaderType Unit Unit) k' =
          (.ok [], .Zero) :=
  classify_error_terminal_Zero errRead gzNone () () 3
    (by rw [make_reader, sniffLoop]; simp [errRead])

/-- C6: the look-ahead loop accumulates at most 11 bytes over any
well-formed source before deciding, and a source yielding one byte per call
is still sniffed to the full 11 bytes (a short read is never treated as end
of stream): the loop only stops at 11 bytes or at a genuine 0-byte read. -/
theorem sniff_short_read_robust :
    (∀ (σ ε : Type) (readFn : ReadFn σ ε), ReadFnWF readFn →
      ∀ (r : σ) (acc : List Byte) (s' : σ),
        sniffLoop readFn r [] = .ok (acc, s') → acc.length ≤ 11)
    ∧ (∀ (l : List Byte), 11 ≤ l.length →
        sniffLoop (oneRead (ε := Unit)) l [] = .ok (l.take 11, l.drop 11)) := by
  constructor
  · intro σ ε readFn hwf r acc s' h
    exact sniffLoop_length_le readFn hwf r [] (by simp) acc s' h
  · intro l hl
    have h := sniffLoop_oneRead_aux (ε := Unit) 11 [] l (by simp) (by omega) hl
    simpa using h

/-- Witness for C6: the 1-byte source consumes exactly the first 11 bytes of
a 12-byte input, and the sniff of a short in-memory input stays within 11. -/
theorem sniff_short_read_robust_inst :
    (([5] : List Byte).length ≤ 11)
    ∧ sniffLoop (oneRead (ε := Unit)) [0, 1, 2, 3, 4, 5, 6, 7, 8, 9, 10, 11] []
        = .ok ([0, 1, 2, 3, 4, 5, 6, 7, 8, 9, 10], [11]) :=
  ⟨sniff_short_read_robust.1 (List Byte) Unit listRead listRead_wf [5] [5] []
      (sniffLoop_listRead [5]),
    sniff_short_read_robust.2 [0, 1, 2, 3, 4, 5, 6, 7, 8, 9, 10, 11] (by decide)⟩

/-- C7: while `pos < size` a read copies exactly `min (size - pos) k` bytes
of the snapshot starting at `pos`, advances `pos` by that amount and returns
them — with the underlying source untouched (the equation holds for every
`readFn` and leaves the `reader` field unchanged); once `size ≤ pos` every
read forwards to the underlying source and returns its result verbatim,
including 0 bytes and errors. -/
theorem rawreader_read_contract {σ ε : Type} (readFn : ReadFn σ ε)
    (raw : RawReader σ) (k : Nat) :
    (raw.pos < raw.size → raw.size ≤ raw.preread.length →
      RawReader.read readFn raw k =
        (.ok ((raw.preread.drop raw.pos).take (min (raw.size - raw.pos) k)),
          ⟨raw.preread, raw.pos + min (raw.size - raw.pos) k, raw.size,
            raw.reader⟩)
      ∧ ((raw.preread.drop raw.pos).take (min (raw.size - raw.pos) k)).length
          = min (raw.size - raw.pos) k)
    ∧ (raw.size ≤ raw.pos →
      RawReader.read readFn raw k =
        ((readFn raw.reader k).1,
          ⟨raw.preread, raw.pos, raw.size, (readFn raw.reader k).2⟩)) := by
  constructor
  · intro hlt hwf
    refine ⟨raw_read_snapshot readFn raw k hlt, ?_⟩
    simp only [List.length_take, List.length_drop]
    omega
  · intro hge
    exact raw_read_forward readFn raw k hge

/-- Witness for C7: a snapshot-phase read (copying 2 of 5 requested bytes,
source untouched) and a forwarding-phase read on concrete states. -/
theorem rawreader_read_contract_inst :
    (RawReader.read (listRead (ε := Unit))
        ⟨[9, 8, 7, 6, 5, 4, 3, 2, 1, 0, 0], 1, 3, [77]⟩ 5 =
      (.ok [8, 7], ⟨[9, 8, 7, 6, 5, 4, 3, 2, 1, 0, 0], 3, 3, [77]⟩)
      ∧ (([8, 7] : List Byte)).length = 2)
    ∧ RawReader.read (listRead (ε := Unit))
        ⟨[9, 8, 7, 6, 5, 4, 3, 2, 1, 0, 0], 3, 3, [77]⟩ 5 =
      (.ok [77], ⟨[9, 8, 7, 6, 5, 4, 3, 2, 1, 0, 0], 3, 3, []⟩) :=
  ⟨(rawreader_read_contract (listRead (ε := Unit))
      ⟨[9, 8, 7, 6, 5, 4, 3, 2, 1, 0, 0], 1, 3, [77]⟩ 5).1 (by decide) (by decide),
    (rawreader_read_contract (listRead (ε := Unit))
      ⟨[9, 8, 7, 6, 5, 4, 3, 2, 1, 0, 0], 3, 3, [77]⟩ 5).2 (by decide)⟩

/-- C8: a source that produces 0 bytes on the very first read attempt is
classified `Zero` (Empty), the first read returns 0 bytes, and every
subsequent read — under any source function and collaborator, since `Zero`
holds neither — returns 0 bytes and never errors, forever. -/
theorem empty_source_forever_zero {σ ε : Type} (readFn : ReadFn σ ε)
    (gzNew : GzModel σ ε) (r : σ) (s' : σ) (k : Nat)
    (h : readFn r 11 = (.ok [], s')) :
    make_reader readFn gzNew r = .ok .Zero
    ∧ ReaderType.read readFn gzNew (.Init r) k = (.ok [], .Zero)
    ∧ ∀ (readFn' : ReadFn σ ε) (gzNew' : GzModel σ ε) (k' : Nat),
        ReaderType.read readFn' gzNew' (.Zero : ReaderType σ ε) k' =
          (.ok [], .Zero) := by
  have hmk : make_reader readFn gzNew r = .ok .Zero := by
    rw [make_reader, sniffLoop]
    simp [h]
  refine ⟨hmk, ?_, ?_⟩
  · simp [ReaderType.read, hmk, ReaderType.readTerminal]
  · intro readFn' gzNew' k'
    simp [ReaderType.read]

/-- Witness for C8 over the empty in-memory source. -/
theorem empty_source_forever_zero_inst :
    make_reader (listRead (ε := Unit)) gzNone [] = .ok .Zero
    ∧ ReaderType.read (listRead (ε := Unit)) gzNone (.Init []) 4 = (.ok [], .Zero)
    ∧ ∀ (readFn' : ReadFn (List Byte) Unit) (gzNew' : GzModel (List Byte) Unit)
        (k' : Nat),
        ReaderType.read readFn' gzNew' (.Zero : ReaderType (List Byte) Unit) k' =
          (.ok [], .Zero) :=
  empty_source_forever_zero (listRead (ε := Unit)) gzNone [] [] 4 rfl

/-- C9: the state machine transitions at most once: every first read from
`Init` lands in one of the three terminal variants (`Zero`, `Raw`, `Gz`),
and every read from a terminal variant preserves that variant — no read
re-classifies or returns the instance to `Init`. -/
theorem reader_single_transition {σ ε : Type} (readFn : ReadFn σ ε)
    (gzNew : GzModel σ ε) :
    (∀ (r : σ) (k : Nat),
        ((ReaderType.read readFn gzNew (.Init r) k).2).tag = 1
        ∨ ((ReaderType.read readFn gzNew (.Init r) k).2).tag = 2
        ∨ ((ReaderType.read readFn gzNew (.Init r) k).2).tag = 3)
    ∧ (∀ (rt : ReaderType σ ε) (k : Nat), rt.tag ≠ 0 →
        ((ReaderType.read readFn gzNew rt k).2).tag = rt.tag) := by
  constructor
  · intro r k
    simp only [ReaderType.read]
    cases hmk : make_reader readFn gzNew r with
    | error e => left; rfl
    | ok rt =>
      have hni := make_reader_not_init readFn gzNew r rt hmk
      rw [readTerminal_tag readFn rt k hni]
      cases rt with
      | Init r' => simp [ReaderType.is_init] at hni
      | Zero => left; rfl
      | Raw raw => right; left; rfl
      | Gz gz => right; right; rfl
  · intro rt k htag
    cases rt with
    | Init r => simp [ReaderType.tag] at htag
    | Zero => rfl
    | Raw raw => rfl
    | Gz gz => rfl

/-- Witness for C9: a concrete first read lands in a terminal variant, and a
read from `Zero` preserves the variant. -/
theorem reader_single_transition_inst :
    (((ReaderType.read (listRead (ε := Unit)) gzNone (.Init [1, 2]) 3).2).tag = 1
      ∨ ((ReaderType.read (listRead (ε := Unit)) gzNone (.Init [1, 2]) 3).2).tag = 2
      ∨ ((ReaderType.read (listRead (ε := Unit)) gzNone (.Init [1, 2]) 3).2).tag = 3)
    ∧ ((ReaderType.read (listRead (ε := Unit)) gzNone
        (.Zero : ReaderType (List Byte) Unit) 3).2).tag =
      (ReaderType.Zero : ReaderType (List Byte) Unit).tag :=
  ⟨(reader_single_transition (listRead (ε := Unit)) gzNone).1 [1, 2] 3,
    (reader_single_transition (listRead (ε := Unit)) gzNone).2 .Zero 3 (by decide)⟩

/-- C10: replay-reader invariant: states produced by classification satisfy
`pos ≤ size ≤ 11 = preread.length`; every read preserves `pos ≤ size` (and
leaves `size` and the snapshot unchanged); and in the snapshot phase the
bytes handed to the caller are drawn exclusively from `preread[pos..size]` —
the unfilled tail at indices `≥ size` is never exposed. -/
theorem rawreader_invariant {σ ε : Type} :
    (∀ (readFn : ReadFn σ ε) (gzNew : GzModel σ ε) (r : σ) (raw : RawReader σ),
        ReadFnWF readFn → make_reader readFn gzNew r = .ok (.Raw raw) →
        raw.pos ≤ raw.size ∧ raw.size ≤ 11 ∧ raw.preread.length = 11)
    ∧ (∀ (readFn : ReadFn σ ε) (raw : RawReader σ) (k : Nat), raw.WF →
        ((RawReader.read readFn raw k).2).pos ≤ ((RawReader.read readFn raw k).2).size
        ∧ ((RawReader.read readFn raw k).2).size = raw.size
        ∧ ((RawReader.read readFn raw k).2).preread = raw.preread)
    ∧ (∀ (readFn : ReadFn σ ε) (raw : RawReader σ) (k : Nat),
        raw.WF → raw.pos < raw.size →
        (RawReader.read readFn raw k).1 =
          .ok (((raw.preread.take raw.size).drop raw.pos).take k)) := by
  refine ⟨?_, ?_, ?_⟩
  · intro readFn gzNew r raw hwf h
    rw [make_reader] at h
    cases hs : sniffLoop readFn r [] with
    | error e => rw [hs] at h; exact absurd h (by simp)
    | ok p =>
      obtain ⟨acc, s'⟩ := p
      have hacc : acc.length ≤ 11 :=
        sniffLoop_length_le readFn hwf r [] (by simp) acc s' hs
      rw [hs] at h
      simp only [] at h
      split at h
      · exact absurd h (by simp)
      · split at h
        · exact absurd h (by simp)
        · simp only [Except.ok.injEq, ReaderType.Raw.injEq] at h
          rw [← h]
          refine ⟨Nat.zero_le _, hacc, fillBuf_length acc hacc⟩
  · intro readFn raw k hwf
    obtain ⟨hps, hsp⟩ := hwf
    by_cases hge : raw.size ≤ raw.pos
    · rw [raw_read_forward readFn raw k hge]
      exact ⟨hps, rfl, rfl⟩
    · rw [raw_read_snapshot readFn raw k (by omega)]
      refine ⟨?_, rfl, rfl⟩
      show raw.pos + min (raw.size - raw.pos) k ≤ raw.size
      omega
  · intro readFn raw k hwf hlt
    rw [raw_read_snapshot readFn raw k hlt]
    simp only []
    have h1 : (raw.preread.take raw.size).drop raw.pos =
        (raw.preread.drop raw.pos).take (raw.size - raw.pos) :=
      List.drop_take ..
    rw [h1, List.take_take, Nat.min_comm]

/-- Witness for C10: the classified state of a 3-byte input satisfies the
invariant; a concrete snapshot-phase read preserves it and only exposes
filled bytes. -/
theorem rawreader_invariant_inst :
    ((⟨fillBuf [1, 2, 3], 0, 3, ([] : List Byte)⟩ : RawReader (List Byte)).pos ≤
        (⟨fillBuf [1, 2, 3], 0, 3, ([] : List Byte)⟩ : RawReader (List Byte)).size
      ∧ (⟨fillBuf [1, 2, 3], 0, 3, ([] : List Byte)⟩ : RawReader (List Byte)).size ≤ 11
      ∧ (⟨fillBuf [1, 2, 3], 0, 3, ([] : List Byte)⟩ :
          RawReader (List Byte)).preread.length = 11)
    ∧ (((RawReader.read (listRead (ε := Unit))
          ⟨[1, 2, 3, 4, 5, 6, 7, 8, 9, 10, 11], 1, 4, [9]⟩ 2).2).pos ≤
        ((RawReader.read (listRead (ε := Unit))
          ⟨[1, 2, 3, 4, 5, 6, 7, 8, 9, 10, 11], 1, 4, [9]⟩ 2).2).size
      ∧ ((RawReader.read (listRead (ε := Unit))
          ⟨[1, 2, 3, 4, 5, 6, 7, 8, 9, 10, 11], 1, 4, [9]⟩ 2).2).size = 4
      ∧ ((RawReader.read (listRead (ε := Unit))
          ⟨[1, 2, 3, 4, 5, 6, 7, 8, 9, 10, 11], 1, 4, [9]⟩ 2).2).preread =
        [1, 2, 3, 4, 5, 6, 7, 8, 9, 10, 11])
    ∧ (RawReader.read (listRead (ε := Unit))
        ⟨[1, 2, 3, 4, 5, 6, 7, 8, 9, 10, 11], 1, 4, [9]⟩ 2).1 =
      .ok ((([1, 2, 3, 4, 5, 6, 7, 8, 9, 10, 11].take 4).drop 1).take 2) :=
  ⟨(rawreader_invariant (σ := List Byte) (ε := Unit)).1 (listRead (ε := Unit))
      gzNone [1, 2, 3] ⟨fillBuf [1, 2, 3], 0, 3, []⟩ listRead_wf
      (make_reader_listRead_raw gzNone [1, 2, 3] (by decide) (by decide)),
    (rawreader_invariant (σ := List Byte) (ε := Unit)).2.1 (listRead (ε := Unit))
      ⟨[1, 2, 3, 4, 5, 6, 7, 8, 9, 10, 11], 1, 4, [9]⟩ 2 ⟨by decide, by decide⟩,
    (rawreader_invariant (σ := List Byte) (ε := Unit)).2.2 (listRead (ε := Unit))
      ⟨[1, 2, 3, 4, 5, 6, 7, 8, 9, 10, 11], 1, 4, [9]⟩ 2 ⟨by decide, by decide⟩
      (by decide)⟩
